import Mathlib

/-!
Shallow embedding of the Rust crate `indexedlinkedhashmap` (src/lib.rs).

The container `IndexedLinkedHashMap<I, K, V>` stores
  * `_keys : I` — the Order Index, here instantiated with the `Vec<K>`
    backing (`impl Keys<K> for Vec<K>`), modelled as `List K`;
  * `_values : HashMap<K, IndexedLinkedHashMapValue<V>>` — the Value
    Table, modelled as an association list with unique keys (`hmInsert`
    replaces in place, `hmRemove` deletes the entry), which captures
    exactly the `get`/`insert`/`remove`/`contains_key`/`len` behaviour of
    `std::collections::HashMap` used by the source.

Every operation below is translated line by line from the source; the
`Option Nat` index type mirrors the source's `Option<usize>` interface of
the `Keys` trait.
-/

/-- `IndexedLinkedHashMapValue<V>`: stored position and value (lib.rs 11-15). -/
structure IndexedLinkedHashMapValue (V : Type) where
  index : Option Nat
  value : V
deriving DecidableEq

/-- Model of `HashMap::get`: first (only) entry for the key. -/
def hmGet {K V : Type} [DecidableEq K] (m : List (K × V)) (k : K) : Option V :=
  match m with
  | [] => none
  | (k', v) :: rest => if k' = k then some v else hmGet rest k

/-- Model of `HashMap::insert`: replace the entry in place if the key is
present, otherwise append. -/
def hmInsert {K V : Type} [DecidableEq K] (m : List (K × V)) (k : K) (v : V) :
    List (K × V) :=
  match m with
  | [] => [(k, v)]
  | (k', v') :: rest =>
      if k' = k then (k, v) :: rest else (k', v') :: hmInsert rest k v

/-- Model of `HashMap::remove` (the mapping part; the returned entry is
read off with `hmGet` first, as the source does via `contains_key`). -/
def hmRemove {K V : Type} [DecidableEq K] (m : List (K × V)) (k : K) :
    List (K × V) :=
  match m with
  | [] => []
  | (k', v') :: rest => if k' = k then rest else (k', v') :: hmRemove rest k

/-- Model of `HashMap::contains_key`. -/
def hmContains {K V : Type} [DecidableEq K] (m : List (K × V)) (k : K) : Bool :=
  (hmGet m k).isSome

/-- `impl Keys<K> for Vec<K>` — `get` (lib.rs 206-214). -/
def vecKeysGet {K : Type} (l : List K) (i : Option Nat) : Option K :=
  match i with
  | some i => if i ≥ l.length then none else l.get? i
  | none => none

/-- `impl Keys<K> for Vec<K>` — `set` (lib.rs 216-226): in-place overwrite,
no-op when out of range or `None`. -/
def vecKeysSet {K : Type} (l : List K) (i : Option Nat) (k : K) : List K :=
  match i with
  | some i => if i ≥ l.length then l else l.set i k
  | none => l

/-- `impl Keys<K> for Vec<K>` — `push` (lib.rs 228-230). -/
def vecKeysPush {K : Type} (l : List K) (k : K) : List K :=
  l ++ [k]

/-- `impl Keys<K> for Vec<K>` — `remove` (lib.rs 232-242): delete the slot,
shifting later elements down; no-op when out of range or `None`. -/
def vecKeysRemove {K : Type} (l : List K) (i : Option Nat) : List K :=
  match i with
  | some i => if i ≥ l.length then l else l.eraseIdx i
  | none => l

/-- `IndexedLinkedHashMap<Vec<K>, K, V>` (lib.rs 18-21). -/
structure IndexedLinkedHashMap (K V : Type) where
  _keys : List K
  _values : List (K × IndexedLinkedHashMapValue V)
deriving DecidableEq

namespace IndexedLinkedHashMap

variable {K V : Type} [DecidableEq K]

/-- `new` (lib.rs 30-35). -/
def new : IndexedLinkedHashMap K V :=
  { _keys := [], _values := [] }

/-- `get` (lib.rs 38-43). -/
def get (s : IndexedLinkedHashMap K V) (k : K) : Option V :=
  match hmGet s._values k with
  | some v => some v.value
  | none => none

/-- `set` (lib.rs 46-66): upsert. The source's `contains_key` test followed
by `get(&k).unwrap()` is rendered as a match on `hmGet`. -/
def set (s : IndexedLinkedHashMap K V) (k : K) (v : V) :
    IndexedLinkedHashMap K V :=
  match hmGet s._values k with
  | some value =>
      { s with
        _values := hmInsert s._values k ⟨value.index, v⟩ }
  | none =>
      let ks := vecKeysPush s._keys k
      { _keys := ks
        _values := hmInsert s._values k ⟨some (ks.length - 1), v⟩ }

/-- `at` (lib.rs 69-89); named `atIndex` because `at` is reserved in Lean. -/
def atIndex (s : IndexedLinkedHashMap K V) (i : Option Nat) : Option V :=
  match i with
  | some i =>
      if i ≥ s._keys.length then none
      else
        match vecKeysGet s._keys (some i) with
        | some k =>
            match hmGet s._values k with
            | some v => some v.value
            | none => none
        | none => none
  | none =>
      match vecKeysGet s._keys none with
      | some k =>
          match hmGet s._values k with
          | some v => some v.value
          | none => none
      | none => none

/-- `key_at` (lib.rs 92-100). -/
def key_at (s : IndexedLinkedHashMap K V) (i : Option Nat) : Option K :=
  match i with
  | some i => if i ≥ s._keys.length then none else vecKeysGet s._keys (some i)
  | none => vecKeysGet s._keys none

/-- `set_at` (lib.rs 103-124). -/
def set_at (s : IndexedLinkedHashMap K V) (i : Option Nat) (k : K) (v : V) :
    IndexedLinkedHashMap K V :=
  match i with
  | some i =>
      if i ≥ s._keys.length then s
      else
        { _keys := vecKeysSet s._keys (some i) k
          _values := hmInsert s._values k ⟨some i, v⟩ }
  | none =>
      { _keys := vecKeysSet s._keys none k
        _values := hmInsert s._values k ⟨none, v⟩ }

/-- `remove` (lib.rs 127-136): returns the removed entry (if any) together
with the new container state. -/
def remove (s : IndexedLinkedHashMap K V) (k : K) :
    Option (IndexedLinkedHashMapValue V) × IndexedLinkedHashMap K V :=
  match hmGet s._values k with
  | some removed =>
      (some removed,
        { _keys := vecKeysRemove s._keys removed.index
          _values := hmRemove s._values k })
  | none => (none, s)

/-- `clear` (lib.rs 139-142). -/
def clear (_s : IndexedLinkedHashMap K V) : IndexedLinkedHashMap K V :=
  { _keys := [], _values := [] }

/-- `len` (lib.rs 145-147): the length of the Order Index. -/
def len (s : IndexedLinkedHashMap K V) : Nat :=
  s._keys.length

/-- `contains_key` (lib.rs 150-152). -/
def contains_key (s : IndexedLinkedHashMap K V) (k : K) : Bool :=
  hmContains s._values k

/-- `keys` (lib.rs 155-157): the Order Index itself. -/
def keys (s : IndexedLinkedHashMap K V) : List K :=
  s._keys

/-- `values` (lib.rs 160-165): the Value Table's entries, collected. -/
def values (s : IndexedLinkedHashMap K V) :
    List (IndexedLinkedHashMapValue V) :=
  s._values.map (fun p => p.2)

/-- Runs a sequence of `set` calls, in order. -/
def setAll (s : IndexedLinkedHashMap K V) (ps : List (K × V)) :
    IndexedLinkedHashMap K V :=
  ps.foldl (fun t p => t.set p.1 p.2) s

end IndexedLinkedHashMap

open IndexedLinkedHashMap

/-- Concrete state: `set("a",1); set("b",2)` on a fresh container. -/
def exAB : IndexedLinkedHashMap String Nat :=
  ((new.set "a" 1).set "b" 2)

/-- Concrete state: `set("a",1); set("b",2); set("c",3)` on a fresh container. -/
def exABC : IndexedLinkedHashMap String Nat :=
  (((new.set "a" 1).set "b" 2).set "c" 3)

/-- Concrete state: `exABC` followed by `remove("a")`. -/
def exABCr : IndexedLinkedHashMap String Nat :=
  (exABC.remove "a").2

/-- Concrete state: `exAB` followed by `remove("a")`. -/
def exABr : IndexedLinkedHashMap String Nat :=
  (exAB.remove "a").2

section HelperLemmas

variable {K V : Type} [DecidableEq K]

theorem hmGet_insert_self (m : List (K × V)) (k : K) (v : V) :
    hmGet (hmInsert m k v) k = some v := by
  induction m with
  | nil => simp [hmInsert, hmGet]
  | cons p rest ih =>
      obtain ⟨k', v'⟩ := p
      by_cases h : k' = k
      · simp [hmInsert, hmGet, h]
      · simp [hmInsert, hmGet, h, ih]

theorem hmGet_insert_ne (m : List (K × V)) (k k' : K) (v : V) (hne : k' ≠ k) :
    hmGet (hmInsert m k v) k' = hmGet m k' :=
  by
  induction m with
  | nil => simp [hmInsert, hmGet, hne.symm]
  | cons p rest ih =>
      obtain ⟨k0, v0⟩ := p
      by_cases h : k0 = k
      · subst h
        simp [hmInsert, hmGet, hne.symm]
      · simp [hmInsert, hmGet, h, ih]

theorem IndexedLinkedHashMap.keys_set_of_mem (s : IndexedLinkedHashMap K V)
    (k : K) (v : V) (w : IndexedLinkedHashMapValue V)
    (h : hmGet s._values k = some w) :
    (s.set k v) =
      { s with _values := hmInsert s._values k ⟨w.index, v⟩ } := by
  simp [IndexedLinkedHashMap.set, h]

theorem IndexedLinkedHashMap.set_of_not_mem (s : IndexedLinkedHashMap K V)
    (k : K) (v : V) (h : hmGet s._values k = none) :
    (s.set k v) =
      { _keys := s._keys ++ [k]
        _values :=
          hmInsert s._values k ⟨some ((s._keys ++ [k]).length - 1), v⟩ } := by
  simp [IndexedLinkedHashMap.set, h, vecKeysPush]

theorem IndexedLinkedHashMap.contains_key_set_ne (s : IndexedLinkedHashMap K V)
    (k k' : K) (v : V) (hne : k' ≠ k) :
    (s.set k v).contains_key k' = s.contains_key k' := by
  cases h : hmGet s._values k with
  | some w =>
      rw [s.keys_set_of_mem k v w h]
      simp [IndexedLinkedHashMap.contains_key, hmContains, hmGet_insert_ne _ _ _ _ hne]
  | none =>
      rw [s.set_of_not_mem k v h]
      simp [IndexedLinkedHashMap.contains_key, hmContains, hmGet_insert_ne _ _ _ _ hne]

theorem notMem_set_of_unique {α : Type} (l : List α) (i : Nat) (x y : α)
    (hx : l.get? i = some x) (hu : ∀ j, l.get? j = some x → j = i)
    (hne : y ≠ x) : x ∉ l.set i y := by
  induction l generalizing i with
  | nil => simp at hx
  | cons a as ih =>
      cases i with
      | zero =>
          simp only [List.set]
          intro hmem
          rcases List.mem_cons.mp hmem with h | h
          · exact hne h.symm
          · obtain ⟨j, hj⟩ := List.get?_of_mem h
            have : j + 1 = 0 := hu (j + 1) (by simpa using hj)
            omega
      | succ n =>
          simp only [List.set]
          intro hmem
          rcases List.mem_cons.mp hmem with h | h
          · have : (0 : Nat) = n + 1 := hu 0 (by simp [h])
            omega
          · exact ih n (by simpa using hx)
              (fun j hj => by
                have : j + 1 = n + 1 := hu (j + 1) (by simpa using hj)
                omega) h

end HelperLemmas

section ClaimTheorems

variable {K V : Type} [DecidableEq K]

/-- C1 (code bug): the mutual-consistency invariant fails on a reachable
state. After `set("a",1); set("b",2); set("c",3); remove("a")`, the Order
Index is `["b","c"]` — key `"b"` actually sits at index 0 — yet the Value
Table still records position `some 1` for `"b"` (and `some 2` for `"c"`):
`remove` never shifts the cached positions of the remaining keys, so the
recorded position does not equal the actual index in the Order Index. -/
theorem C1_remove_leaves_stale_positions :
    exABCr._keys = ["b", "c"] ∧
    hmGet exABCr._values "b" = some ⟨some 1, 2⟩ ∧
    hmGet exABCr._values "c" = some ⟨some 2, 3⟩ ∧
    exABCr.key_at (some 1) = some "c" := by
  decide

/-- C2 (code bug): the length invariant fails on a reachable state. After
`set("a",1); set("b",2); remove("a"); remove("b")` both removes succeed
(2 distinct keys set, 2 removed, so the claim demands `len() = 0`), yet
`len()` is 1 while `values()` has length 0: the second remove deletes
`"b"` from the Value Table but, because its recorded position 1 is stale
and out of range, leaves the Order Index slot in place. -/
theorem C2_length_invariant_fails :
    (exAB.remove "a").1.isSome = true ∧
    (exABr.remove "b").1.isSome = true ∧
    (exABr.remove "b").2.len = 1 ∧
    ((exABr.remove "b").2.values).length = 0 := by
  decide

/-- C3 (code bug): `remove` can succeed without deleting the key's slot
from the Order Index. In the state reached by
`set("a",1); set("b",2); remove("a")`, calling `remove("b")` returns the
stored entry (value 2) and deletes `"b"` from the Value Table, but the
Order Index is left as `["b"]`: the recorded position `some 1` is stale
and out of range, so the slot removal is a silent no-op. -/
theorem C3_remove_misses_order_index_slot :
    (exABr.remove "b").1 = some ⟨some 1, 2⟩ ∧
    (exABr.remove "b").2._keys = ["b"] ∧
    (exABr.remove "b").2.contains_key "b" = false := by
  decide

/-- C4 (confirmed): after `set("a",1); set("b",2); set("c",3); remove("a")`
on a fresh container, `key_at(0) = "b"`, `key_at(1) = "c"`,
`get("b") = 2`, `get("c") = 3`, and `len() = 2`. -/
theorem C4_remove_reindexing_observable :
    exABCr.key_at (some 0) = some "b" ∧
    exABCr.key_at (some 1) = some "c" ∧
    exABCr.get "b" = some 2 ∧
    exABCr.get "c" = some 3 ∧
    exABCr.len = 2 := by
  decide

/-- C5 (confirmed): `set` is an upsert. If the key is present (with stored
entry `w`), the Order Index and length are unchanged, the new stored value
is `v` and the stored position `w.index` is preserved. If the key is
absent, the key is appended to the Order Index, inserted into the Value
Table with position `len` (the pre-call length), and the length increases
by one. `set` is a total function, so it never fails. -/
theorem C5_set_upsert (s : IndexedLinkedHashMap K V) (k : K) (v : V) :
    (∀ w : IndexedLinkedHashMapValue V, hmGet s._values k = some w →
      (s.set k v)._keys = s._keys ∧
      hmGet (s.set k v)._values k = some ⟨w.index, v⟩ ∧
      (s.set k v).len = s.len) ∧
    (hmGet s._values k = none →
      (s.set k v)._keys = s._keys ++ [k] ∧
      hmGet (s.set k v)._values k = some ⟨some s.len, v⟩ ∧
      (s.set k v).len = s.len + 1) := by
  constructor
  · intro w hw
    rw [s.keys_set_of_mem k v w hw]
    refine ⟨rfl, hmGet_insert_self _ _ _, rfl⟩
  · intro h
    rw [s.set_of_not_mem k v h]
    refine ⟨rfl, ?_, ?_⟩
    · have : (s._keys ++ [k]).length - 1 = s.len := by
        simp [IndexedLinkedHashMap.len]
      rw [this]
      exact hmGet_insert_self _ _ _
    · simp [IndexedLinkedHashMap.len]

/-- Witness for C5: both branches applied at concrete inputs —
overwriting `"a"` in `exAB` keeps the Order Index and position `some 0`;
inserting fresh `"z"` appends it with position `some 2`. -/
theorem C5_set_upsert_witness :
    ((exAB.set "a" 7)._keys = exAB._keys ∧
      hmGet (exAB.set "a" 7)._values "a" = some ⟨some 0, 7⟩ ∧
      (exAB.set "a" 7).len = exAB.len) ∧
    ((exAB.set "z" 9)._keys = exAB._keys ++ ["z"] ∧
      hmGet (exAB.set "z" 9)._values "z" = some ⟨some exAB.len, 9⟩ ∧
      (exAB.set "z" 9).len = exAB.len + 1) :=
  ⟨(C5_set_upsert exAB "a" 7).1 ⟨some 0, 1⟩ (by decide),
    (C5_set_upsert exAB "z" 9).2 (by decide)⟩

/-- C6 (confirmed): `set_at` with an in-bounds-typed but out-of-range index
`i ≥ len()` returns the state unchanged — no change to `len()`, the Order
Index, or the Value Table, and no error is signalled (the function is
total). -/
theorem C6_set_at_out_of_range_noop (s : IndexedLinkedHashMap K V)
    (i : Nat) (k : K) (v : V) (h : i ≥ s.len) :
    s.set_at (some i) k v = s := by
  have h' : i ≥ s._keys.length := h
  simp [IndexedLinkedHashMap.set_at, h']

/-- Witness for C6: `set_at(5, "z", 9)` on the two-element `exAB` leaves
the container unchanged. -/
theorem C6_set_at_out_of_range_noop_witness :
    exAB.set_at (some 5) "z" 9 = exAB :=
  C6_set_at_out_of_range_noop exAB 5 "z" 9 (by decide)

end ClaimTheorems

section ClaimTheorems2

variable {K V : Type} [DecidableEq K]

/-- C7 (confirmed): the stale-key hazard of `set_at`. If position `i` of
the Order Index holds `kOld` (occurring nowhere else, which is the case in
every state the `set`/`remove` interface builds), `kOld` has Value Table
entry `e`, and `set_at(i, kNew, v)` is called with `kNew ≠ kOld`, then
afterwards the Order Index holds `kNew` at position `i`, the Value Table
maps `kNew` to position `i` with value `v`, while `kOld`'s Value Table
entry is untouched — `get` and `contains_key` still succeed on `kOld` —
even though `kOld` no longer appears anywhere in the Order Index. -/
theorem C7_set_at_orphans_old_key (s : IndexedLinkedHashMap K V) (i : Nat)
    (kOld kNew : K) (v : V) (e : IndexedLinkedHashMapValue V)
    (hi : s._keys.get? i = some kOld)
    (hnd : s._keys.Nodup)
    (hOld : hmGet s._values kOld = some e)
    (hne : kNew ≠ kOld) :
    (s.set_at (some i) kNew v)._keys.get? i = some kNew ∧
    hmGet (s.set_at (some i) kNew v)._values kNew = some ⟨some i, v⟩ ∧
    hmGet (s.set_at (some i) kNew v)._values kOld = some e ∧
    (s.set_at (some i) kNew v).get kOld = some e.value ∧
    (s.set_at (some i) kNew v).contains_key kOld = true ∧
    kOld ∉ (s.set_at (some i) kNew v)._keys := by
  have hlt : i < s._keys.length := (List.get?_eq_some.mp hi).1
  have hnle : ¬ i ≥ s._keys.length := by omega
  have hstep : s.set_at (some i) kNew v =
      { _keys := s._keys.set i kNew
        _values := hmInsert s._values kNew ⟨some i, v⟩ } := by
    simp [IndexedLinkedHashMap.set_at, hnle, vecKeysSet]
  have hu : ∀ j, s._keys.get? j = some kOld → j = i := by
    intro j hj
    have hjlt : j < s._keys.length := (List.get?_eq_some.mp hj).1
    exact List.get?_inj hjlt hnd (by rw [hj, hi])
  rw [hstep]
  refine ⟨List.get?_set_eq_of_lt kNew hlt, hmGet_insert_self _ _ _, ?_, ?_, ?_, ?_⟩
  · rw [hmGet_insert_ne _ _ _ _ (Ne.symm hne)]
    exact hOld
  · show IndexedLinkedHashMap.get _ kOld = some e.value
    rw [IndexedLinkedHashMap.get]
    simp only [hmGet_insert_ne _ _ _ _ (Ne.symm hne), hOld]
  · show IndexedLinkedHashMap.contains_key _ kOld = true
    rw [IndexedLinkedHashMap.contains_key, hmContains]
    simp only [hmGet_insert_ne _ _ _ _ (Ne.symm hne), hOld, Option.isSome_some]
  · exact notMem_set_of_unique s._keys i kOld kNew hi hu hne

/-- Witness for C7: in `exAB` (keys `["a","b"]`), `set_at(0, "z", 9)`
installs `"z"` at position 0 while `"a"` keeps its Value Table entry but
vanishes from the Order Index. -/
theorem C7_set_at_orphans_old_key_witness :
    (exAB.set_at (some 0) "z" 9)._keys.get? 0 = some "z" ∧
    hmGet (exAB.set_at (some 0) "z" 9)._values "z" = some ⟨some 0, 9⟩ ∧
    hmGet (exAB.set_at (some 0) "z" 9)._values "a" = some ⟨some 0, 1⟩ ∧
    (exAB.set_at (some 0) "z" 9).get "a" =
      some (IndexedLinkedHashMapValue.value ⟨some 0, 1⟩) ∧
    (exAB.set_at (some 0) "z" 9).contains_key "a" = true ∧
    "a" ∉ (exAB.set_at (some 0) "z" 9)._keys :=
  C7_set_at_orphans_old_key exAB 0 "a" "z" 9 ⟨some 0, 1⟩
    (by decide) (by decide) (by decide) (by decide)

end ClaimTheorems2

section ClaimTheorems3

variable {K V : Type} [DecidableEq K]

theorem setAll_keys (ps : List (K × V)) :
    ∀ s : IndexedLinkedHashMap K V,
      (ps.map Prod.fst).Nodup →
      (∀ k ∈ ps.map Prod.fst, s.contains_key k = false) →
      (setAll s ps)._keys = s._keys ++ ps.map Prod.fst := by
  induction ps with
  | nil =>
      intro s _ _
      simp [IndexedLinkedHashMap.setAll]
  | cons p ps ih =>
      obtain ⟨k, v⟩ := p
      intro s hnd hco
      have hck : s.contains_key k = false := hco k (by simp)
      have hget : hmGet s._values k = none := by
        rw [IndexedLinkedHashMap.contains_key, hmContains] at hck
        cases h : hmGet s._values k with
        | none => rfl
        | some w => rw [h] at hck; simp at hck
      have hnd' : (ps.map Prod.fst).Nodup :=
        (List.nodup_cons.mp (by simpa using hnd)).2
      have hknotin : k ∉ ps.map Prod.fst :=
        (List.nodup_cons.mp (by simpa using hnd)).1
      have hco' : ∀ k' ∈ ps.map Prod.fst, (s.set k v).contains_key k' = false := by
        intro k' hk'
        have hne : k' ≠ k := fun h => hknotin (h ▸ hk')
        rw [s.contains_key_set_ne k k' v hne]
        exact hco k' (by simp [hk'])
      have hstep : setAll s ((k, v) :: ps) = setAll (s.set k v) ps := rfl
      rw [hstep, ih (s.set k v) hnd' hco', s.set_of_not_mem k v hget]
      simp

/-- C8 (confirmed): order preservation. Starting from a fresh container,
running `set` on any sequence of pairwise-distinct keys makes `keys()`
exactly that sequence of keys in call order. -/
theorem C8_order_preservation (ps : List (K × V))
    (h : (ps.map Prod.fst).Nodup) :
    (setAll (new : IndexedLinkedHashMap K V) ps).keys = ps.map Prod.fst := by
  have hco : ∀ k ∈ ps.map Prod.fst,
      (new : IndexedLinkedHashMap K V).contains_key k = false := fun k _ => rfl
  have hmain := setAll_keys ps new h hco
  simpa [IndexedLinkedHashMap.keys, IndexedLinkedHashMap.new] using hmain

/-- Witness for C8: three distinct keys inserted in order 1, 2, 3. -/
theorem C8_order_preservation_witness :
    (setAll (new : IndexedLinkedHashMap Nat Nat) [(1, 10), (2, 20), (3, 30)]).keys =
      List.map Prod.fst [((1 : Nat), (10 : Nat)), (2, 20), (3, 30)] :=
  C8_order_preservation _ (by decide)

/-- C9 (confirmed): upsert preserves positions. For any state containing
key `k`, after `set(k,v1); set(k,v2)`, `key_at` is unchanged at every
position, `get(k)` returns `v2`, every other key's `get` is unchanged, and
`at(i)` returns `v2` at `k`'s actual position `i` in the Order Index. -/
theorem C9_upsert_preserves_positions (s : IndexedLinkedHashMap K V)
    (k : K) (v1 v2 : V) (h : s.contains_key k = true) :
    (∀ i, ((s.set k v1).set k v2).key_at i = s.key_at i) ∧
    ((s.set k v1).set k v2).get k = some v2 ∧
    (∀ k', k' ≠ k → ((s.set k v1).set k v2).get k' = s.get k') ∧
    (∀ i : Nat, s._keys.get? i = some k →
      ((s.set k v1).set k v2).atIndex (some i) = some v2) := by
  rw [IndexedLinkedHashMap.contains_key, hmContains] at h
  obtain ⟨w, hw⟩ : ∃ w, hmGet s._values k = some w := by
    cases hg : hmGet s._values k with
    | none => rw [hg] at h; simp at h
    | some w => exact ⟨w, rfl⟩
  have h1 := s.keys_set_of_mem k v1 w hw
  have hm1 : hmGet (s.set k v1)._values k = some ⟨w.index, v1⟩ := by
    rw [h1]
    exact hmGet_insert_self _ _ _
  have h2 := (s.set k v1).keys_set_of_mem k v2 ⟨w.index, v1⟩ hm1
  have hkeys : ((s.set k v1).set k v2)._keys = s._keys := by
    rw [h2, h1]
  have hvals : ((s.set k v1).set k v2)._values =
      hmInsert (hmInsert s._values k ⟨w.index, v1⟩) k ⟨w.index, v2⟩ := by
    rw [h2, h1]
  refine ⟨?_, ?_, ?_, ?_⟩
  · intro i
    cases i with
    | none => simp [IndexedLinkedHashMap.key_at, vecKeysGet]
    | some j => simp [IndexedLinkedHashMap.key_at, vecKeysGet, hkeys]
  · rw [IndexedLinkedHashMap.get, hvals, hmGet_insert_self]
  · intro k' hne
    rw [IndexedLinkedHashMap.get, IndexedLinkedHashMap.get, hvals,
      hmGet_insert_ne _ _ _ _ hne, hmGet_insert_ne _ _ _ _ hne]
  · intro i hi
    have hlt : i < s._keys.length := (List.get?_eq_some.mp hi).1
    have hnge : ¬ i ≥ s._keys.length := by omega
    have hi' : s._keys[i]? = some k := by
      rw [← List.get?_eq_getElem?]
      exact hi
    simp [IndexedLinkedHashMap.atIndex, vecKeysGet, hkeys, hvals, hnge, hi',
      hmGet_insert_self]

/-- Witness for C9: overwriting `"a"` twice in `exAB` keeps `key_at(0)`
and `get("b")` unchanged while `get("a")` and `at(0)` become the new
value 8. -/
theorem C9_upsert_preserves_positions_witness :
    ((exAB.set "a" 7).set "a" 8).key_at (some 0) = exAB.key_at (some 0) ∧
    ((exAB.set "a" 7).set "a" 8).get "a" = some 8 ∧
    ((exAB.set "a" 7).set "a" 8).get "b" = exAB.get "b" ∧
    ((exAB.set "a" 7).set "a" 8).atIndex (some 0) = some 8 :=
  ⟨(C9_upsert_preserves_positions exAB "a" 7 8 (by decide)).1 (some 0),
    (C9_upsert_preserves_positions exAB "a" 7 8 (by decide)).2.1,
    (C9_upsert_preserves_positions exAB "a" 7 8 (by decide)).2.2.1 "b" (by decide),
    (C9_upsert_preserves_positions exAB "a" 7 8 (by decide)).2.2.2 0 (by decide)⟩

/-- C10 counterexample: the claim asserts that after `set_at(None, k, v)`
the key `k` does not appear in `keys()`, for any container state. That
fails when `k` is already in the Order Index: after `set(1,5)`, calling
`set_at(None, 1, 9)` leaves the Order Index `[1]`, so `1` still appears in
`keys()`. -/
theorem C10_set_at_none_counterexample :
    ((IndexedLinkedHashMap.new.set (1 : Nat) (5 : Nat)).set_at none 1 9)._keys = [1] ∧
    (1 : Nat) ∈ ((IndexedLinkedHashMap.new.set (1 : Nat) (5 : Nat)).set_at none 1 9).keys := by
  decide

/-- C10 (amended): for any container state, `set_at(None, k, v)` leaves
the Order Index and `len()` unchanged (the backing `Vec`'s `set` ignores a
`None` index) but still inserts `k` into the Value Table with recorded
position `None` and value `v`, so that afterwards `get(k)` returns `v` and
`contains_key(k)` returns `true`; and — provided `k` was not already in
the Order Index — `k` does not appear in `keys()`. -/
theorem C10_set_at_none_partial_noop (s : IndexedLinkedHashMap K V)
    (k : K) (v : V) :
    (s.set_at none k v)._keys = s._keys ∧
    (s.set_at none k v).len = s.len ∧
    hmGet (s.set_at none k v)._values k = some ⟨none, v⟩ ∧
    (s.set_at none k v).get k = some v ∧
    (s.set_at none k v).contains_key k = true ∧
    (k ∉ s._keys → k ∉ (s.set_at none k v).keys) := by
  have hstep : s.set_at none k v =
      { _keys := s._keys, _values := hmInsert s._values k ⟨none, v⟩ } := by
    simp [IndexedLinkedHashMap.set_at, vecKeysSet]
  rw [hstep]
  refine ⟨rfl, rfl, hmGet_insert_self _ _ _, ?_, ?_, fun h => h⟩
  · rw [IndexedLinkedHashMap.get]
    simp [hmGet_insert_self]
  · rw [IndexedLinkedHashMap.contains_key, hmContains]
    simp [hmGet_insert_self]

/-- Witness for C10: `set_at(None, "z", 9)` on `exAB`, whose Order Index
does not contain `"z"`. -/
theorem C10_set_at_none_partial_noop_witness :
    (exAB.set_at none "z" 9)._keys = exAB._keys ∧
    hmGet (exAB.set_at none "z" 9)._values "z" = some ⟨none, 9⟩ ∧
    (exAB.set_at none "z" 9).get "z" = some 9 ∧
    (exAB.set_at none "z" 9).contains_key "z" = true ∧
    "z" ∉ (exAB.set_at none "z" 9).keys :=
  ⟨(C10_set_at_none_partial_noop exAB "z" 9).1,
    (C10_set_at_none_partial_noop exAB "z" 9).2.2.1,
    (C10_set_at_none_partial_noop exAB "z" 9).2.2.2.1,
    (C10_set_at_none_partial_noop exAB "z" 9).2.2.2.2.1,
    (C10_set_at_none_partial_noop exAB "z" 9).2.2.2.2.2 (by decide)⟩

end ClaimTheorems3
